import Mathlib

/-!
Verification of the chunking engine of `md_to_chunked_1.py`
(`PueMetadataParser.parse_line`, `chunk_document`, `create_chunk_obj`,
and the zero-chunk branch of `generate_chunked_file`).

The Python code is embedded shallowly:

* lines are `List Char`; `str.strip()` is `strip`, with the whitespace
  class modelled as ASCII whitespace (the regular inputs of this program
  are ASCII-space separated; the embedding fixes `\s` and `\d` to their
  ASCII meaning);
* each regular expression of `parse_line` is written as an explicit
  deterministic matcher.  All the patterns have the form
  `literal, \s+/\s*, digit-runs, literal, rest`; on the stripped lines the
  code feeds them, greedy matching without backtracking is exact, because a
  digit run is always followed by a non-digit and a whitespace run by a
  non-whitespace (stripped lines do not end in whitespace);
* the nondeterministic parts of `create_chunk_obj` (`uuid.uuid4()`,
  `datetime.now()`, and Python's process-seeded `hash`) are oracle
  parameters `uuids`, `nows`, `hashF`; the chunk index is passed to the
  oracles in place of the global draw sequence, which only feeds the `id`
  and `created_at` fields;
* every chunk carries a ghost field `site` recording which of the four
  emission points of `chunk_document` produced it; no Python field reads it.
-/

namespace MdChunker

/-- ASCII whitespace: the characters of Python's `\s` / `str.strip()`
    restricted to ASCII. -/
def isSpace (c : Char) : Bool :=
  c = ' ' || c = '\t' || c = '\n' || c = '\r' || c = '\x0b' || c = '\x0c'

/-- Python `str.strip()`: drop whitespace from both ends. -/
def strip (l : List Char) : List Char :=
  ((l.dropWhile isSpace).reverse.dropWhile isSpace).reverse

/-- `strip` on `String`, for the places the code strips a built string. -/
def stripStr (s : String) : String :=
  (strip s.toList).asString

/-- Match a literal list of characters at the head, returning the rest. -/
def dropLit : List Char → List Char → Option (List Char)
  | [], l => some l
  | _ :: _, [] => none
  | p :: ps, c :: cs => if c = p then dropLit ps cs else none

/-- Does `needle` start `l`? -/
def startsWithLit (needle l : List Char) : Bool :=
  (dropLit needle l).isSome

/-- Python substring containment `needle in hay`. -/
def containsSub (needle : List Char) : List Char → Bool
  | [] => startsWithLit needle []
  | c :: cs => startsWithLit needle (c :: cs) || containsSub needle cs

/-- Regex `\s+` at the head (greedy): at least one whitespace character,
    then the rest with leading whitespace removed. -/
def matchWs1 (l : List Char) : Option (List Char) :=
  match l with
  | c :: cs => if isSpace c then some (cs.dropWhile isSpace) else none
  | [] => none

/-- Regex `\d+` at the head (greedy): a non-empty digit run and the rest. -/
def matchDigits1 (l : List Char) : Option (List Char × List Char) :=
  match l.takeWhile Char.isDigit with
  | [] => none
  | d => some (d, l.dropWhile Char.isDigit)

/-- Literal `###`. -/
def hash3 : List Char := ['#', '#', '#']

/-- Literal `##`. -/
def hash2 : List Char := ['#', '#']

/-- Literal `#`. -/
def hash1 : List Char := ['#']

/-- Literal «Раздел» (Section keyword). -/
def razdel : List Char := ['Р', 'а', 'з', 'д', 'е', 'л']

/-- Literal «Глава» (Chapter keyword). -/
def glava : List Char := ['Г', 'л', 'а', 'в', 'а']

/-- Literal «Таблица» (Table keyword). -/
def tablica : List Char := ['Т', 'а', 'б', 'л', 'и', 'ц', 'а']

/-- Literal «Примечание» (Note keyword). -/
def primechanie : List Char := ['П', 'р', 'и', 'м', 'е', 'ч', 'а', 'н', 'и', 'е']

/-- Regex `^###\s+(.+)$` of `parse_line`, returning group 1. -/
def matchDocPat (l : List Char) : Option (List Char) :=
  (dropLit hash3 l).bind fun r =>
  (matchWs1 r).bind fun t =>
  if t.isEmpty then none else some t

/-- Regex `^##\s+Раздел\s+(\d+)\s*(.*)$` of `parse_line`,
    returning groups 1 and 2. -/
def matchSectionPat (l : List Char) : Option (List Char × List Char) :=
  (dropLit hash2 l).bind fun r =>
  (matchWs1 r).bind fun r =>
  (dropLit razdel r).bind fun r =>
  (matchWs1 r).bind fun r =>
  (matchDigits1 r).bind fun p =>
  some (p.1, p.2.dropWhile isSpace)

/-- Regex `^#\s+Глава\s+` of `parse_line` (a prefix test only). -/
def matchChapterPre (l : List Char) : Bool :=
  ((dropLit hash1 l).bind fun r =>
   (matchWs1 r).bind fun r =>
   (dropLit glava r).bind fun r =>
   matchWs1 r).isSome

/-- Separator class `[-–:]` of the chapter regex. -/
def matchSep : List Char → Option (List Char)
  | c :: r => if c = '-' || c = '–' || c = ':' then some r else none
  | [] => none

/-- Regex `^#\s+Глава\s+(\d+\.\d+)\s*[-–:]\s*(.*)$` of `parse_line`,
    returning groups 1 and 2. -/
def matchChapterFull (l : List Char) : Option (List Char × List Char) :=
  (dropLit hash1 l).bind fun r =>
  (matchWs1 r).bind fun r =>
  (dropLit glava r).bind fun r =>
  (matchWs1 r).bind fun r =>
  (matchDigits1 r).bind fun p1 =>
  (dropLit ['.'] p1.2).bind fun r =>
  (matchDigits1 r).bind fun p2 =>
  (matchSep (p2.2.dropWhile isSpace)).bind fun r =>
  some (p1.1 ++ '.' :: p2.1, r.dropWhile isSpace)

/-- The chapter branch of `parse_line`: the prefix test, the two negative
    substring tests for «Таблица» and «Примечание», then the full pattern. -/
def classifyChapter (l : List Char) : Option (List Char × List Char) :=
  if matchChapterPre l && !containsSub tablica l && !containsSub primechanie l
  then matchChapterFull l else none

/-- The paragraph branch of `parse_line`: test `^#\s+.+$`, skip lines
    containing «Глава», «Таблица» or «Примечание», and return
    `re.sub(r'^#\s*', '', line).strip()` when that text is non-empty. -/
def classifyParagraph (l : List Char) : Option (List Char) :=
  (dropLit hash1 l).bind fun r =>
  (matchWs1 r).bind fun r2 =>
  if r2.isEmpty then none
  else if containsSub glava l || containsSub tablica l || containsSub primechanie l
  then none
  else
    let text := strip (r.dropWhile isSpace)
    if text.isEmpty then none else some text

/-- Regex `^\((\d+\.\d+\.\d+)\)\s+(.*)$` of `parse_line`, returning
    group 1 (the code only uses group 1 and the whole line). -/
def matchClauseParen (l : List Char) : Option (List Char) :=
  (dropLit ['('] l).bind fun r =>
  (matchDigits1 r).bind fun p1 =>
  (dropLit ['.'] p1.2).bind fun r =>
  (matchDigits1 r).bind fun p2 =>
  (dropLit ['.'] p2.2).bind fun r =>
  (matchDigits1 r).bind fun p3 =>
  (dropLit [')'] p3.2).bind fun r =>
  (matchWs1 r).bind fun _ =>
  some (p1.1 ++ '.' :: p2.1 ++ '.' :: p3.1)

/-- Regex `^(\d+\.\d+\.\d+)\.\s+(.*)$` of `parse_line`, returning group 1. -/
def matchClauseDot (l : List Char) : Option (List Char) :=
  (matchDigits1 l).bind fun p1 =>
  (dropLit ['.'] p1.2).bind fun r =>
  (matchDigits1 r).bind fun p2 =>
  (dropLit ['.'] p2.2).bind fun r =>
  (matchDigits1 r).bind fun p3 =>
  (dropLit ['.'] p3.2).bind fun r =>
  (matchWs1 r).bind fun _ =>
  some (p1.1 ++ '.' :: p2.1 ++ '.' :: p3.1)

/-- The ordered classification of one stripped, non-empty line, mirroring
    the if-chain of `PueMetadataParser.parse_line` (first match wins). -/
inductive LineClass where
  | doc (g1 : List Char)
  | sect (g1 g2 : List Char)
  | chap (g1 g2 : List Char)
  | para (text : List Char)
  | clauseParen (g1 : List Char)
  | clauseDot (g1 : List Char)
  | other
deriving Repr, DecidableEq

/-- Classify one stripped non-empty line, in the priority order of
    `parse_line`. -/
def classify (l : List Char) : LineClass :=
  match matchDocPat l with
  | some g1 => .doc g1
  | none =>
  match matchSectionPat l with
  | some (g1, g2) => .sect g1 g2
  | none =>
  match classifyChapter l with
  | some (g1, g2) => .chap g1 g2
  | none =>
  match classifyParagraph l with
  | some t => .para t
  | none =>
  match matchClauseParen l with
  | some g1 => .clauseParen g1
  | none =>
  match matchClauseDot l with
  | some g1 => .clauseDot g1
  | none => .other

/-- The parser state `self.metadata` of `PueMetadataParser`. -/
structure Metadata where
  Document : String
  Section : String
  Chapter : String
  Paragraph : String
  Clause : String
deriving Repr, DecidableEq

/-- The initial parser state of `PueMetadataParser.__init__`. -/
def Metadata.init : Metadata := ⟨"", "", "", "", ""⟩

/-- A parse record: `{**self.metadata, "Content": content}` as returned by
    `PueMetadataParser._make_record`. -/
structure Record where
  Document : String
  Section : String
  Chapter : String
  Paragraph : String
  Clause : String
  Content : String
deriving Repr, DecidableEq

/-- `PueMetadataParser._make_record`. -/
def make_record (m : Metadata) (content : String) : Record :=
  ⟨m.Document, m.Section, m.Chapter, m.Paragraph, m.Clause, content⟩

/-- The `Section` string built by the section branch:
    `f"Раздел {g1} {title}".strip()`, or `f"Раздел {g1}".strip()` when the
    title is empty. -/
def sectionTitle (g1 g2 : List Char) : String :=
  let title := (strip g2).asString
  if title ≠ "" then stripStr (("Раздел ") ++ g1.asString ++ (" ") ++ title)
  else stripStr (("Раздел ") ++ g1.asString)

/-- The `Chapter` string built by the chapter branch:
    `f"Глава {g1} - {title}".strip()`, or `f"Глава {g1}".strip()` when the
    title is empty. -/
def chapterTitle (g1 g2 : List Char) : String :=
  let title := (strip g2).asString
  if title ≠ "" then stripStr (("Глава ") ++ g1.asString ++ (" - ") ++ title)
  else stripStr (("Глава ") ++ g1.asString)

/-- `PueMetadataParser.parse_line`: strip the line, classify it, mutate the
    metadata and return the record (or `none`).  The mutable `self` is passed
    explicitly: the result is the new state and the returned value. -/
def parse_line (st : Metadata) (rawLine : List Char) : Metadata × Option Record :=
  let line := strip rawLine
  if line.isEmpty then (st, none)
  else
    match classify line with
    | .doc g1 =>
      let st := { st with Document := (strip g1).asString }
      (st, some (make_record st ("")))
    | .sect g1 g2 =>
      let st := { st with
        Section := sectionTitle g1 g2,
        Chapter := "", Paragraph := "", Clause := "" }
      (st, some (make_record st ("")))
    | .chap g1 g2 =>
      let st := { st with
        Chapter := chapterTitle g1 g2,
        Paragraph := "", Clause := "" }
      (st, some (make_record st ("")))
    | .para text =>
      let st := { st with Paragraph := text.asString, Clause := "" }
      (st, some (make_record st ("")))
    | .clauseParen g1 =>
      let st := { st with Clause := g1.asString }
      (st, some (make_record st line.asString))
    | .clauseDot g1 =>
      let st := { st with Clause := g1.asString }
      (st, some (make_record st line.asString))
    | .other =>
      if st.Paragraph ≠ "" || st.Clause ≠ "" then
        (st, some (make_record st line.asString))
      else (st, none)

/-- The `metadata` object of a chunk, as built by `create_chunk_obj`. -/
structure ChunkMeta where
  Document : String
  Section : String
  Chapter : String
  Paragraph : String
  Clause : String
  contains_tables : Bool
  contains_images : Bool
  source_file : String
deriving Repr, DecidableEq

/-- Ghost tag: which emission point of `chunk_document` produced a chunk.
    Not a field of the Python record; carried for specification only. -/
inductive EmitSite where
  | chapterBoundary
  | paragraphBoundary
  | clauseBoundary
  | finalFlush
deriving Repr, DecidableEq

/-- One chunk object of `create_chunk_obj` (plus the ghost `site`). -/
structure Chunk where
  id : String
  metadata : ChunkMeta
  content : String
  created_at : String
  site : EmitSite
deriving Repr, DecidableEq

/-- Substring containment on `String`s (Python `in`). -/
def containsSubStr (needle hay : String) : Bool :=
  containsSub needle.toList hay.toList

/-- Python `f"{n:08x}"`: lower-case hex, zero-padded to eight digits. -/
def hex8 (n : Nat) : String :=
  let s := Nat.toDigits 16 n
  (List.replicate (8 - s.length) '0').asString ++ s.asString

/-- `create_chunk_obj(metadata_record, content_lines, source_file)`.
    `uuidH` stands for the `uuid.uuid4().hex` draw, `nowS` for
    `datetime.now().isoformat()`, and `hashF` for Python's process-seeded
    `hash` on strings; they feed only `id` and `created_at`. -/
def create_chunk_obj (uuidH nowS : String) (hashF : String → Nat)
    (site : EmitSite) (m : Record) (content_lines : List String)
    (source_file : String) : Chunk :=
  let text_content := stripStr (String.intercalate ("\n") content_lines)
  let chunk_id :=
    if m.Clause ≠ "" then
      ("pue_") ++ m.Clause ++ ("_") ++ uuidH.take 8
    else if m.Paragraph ≠ "" then
      ("pue_para_") ++ m.Paragraph ++ ("_") ++ hex8 (hashF text_content % 4294967296)
    else ("pue_unknown_") ++ uuidH.take 8
  let has_tables := containsSubStr ("# Таблица") text_content
    || containsSubStr ("|") text_content
  let has_images := containsSubStr ("![") text_content
  let context_parts : List String :=
    (if m.Document ≠ "" then [m.Document] else []) ++
    (if m.Section ≠ "" then [m.Section] else []) ++
    (if m.Chapter ≠ "" then [m.Chapter] else []) ++
    (if m.Paragraph ≠ "" then [m.Paragraph] else []) ++
    (if m.Clause ≠ "" then [("Пункт ") ++ m.Clause] else [])
  let context_header :=
    if context_parts.isEmpty then ""
    else String.intercalate (". ") context_parts ++ (".")
  let full_content :=
    if context_header = "" then text_content
    else context_header ++ ("\n\n") ++ text_content
  { id := chunk_id
    metadata := {
      Document := m.Document
      Section := m.Section
      Chapter := m.Chapter
      Paragraph := m.Paragraph
      Clause := m.Clause
      contains_tables := has_tables
      contains_images := has_images
      source_file := source_file }
    content := full_content
    created_at := nowS
    site := site }

/-- The loop state of `chunk_document`: the parser object, the emitted
    chunks, and the accumulator variables of the function body. -/
structure AsmState where
  parser : Metadata
  chunks : List Chunk
  current_content : List String
  current_metadata : Option Record
  clause_count : Nat
  has_clause_in_block : Bool

/-- The state of `chunk_document` before its `for` loop. -/
def initState : AsmState :=
  { parser := Metadata.init
    chunks := []
    current_content := []
    current_metadata := none
    clause_count := 0
    has_clause_in_block := false }

/-- The boundary flags of one loop iteration: is the record a new chapter /
    paragraph / clause relative to the tracked block metadata? -/
def newFlags (cm : Option Record) (record : Record) : Bool × Bool × Bool :=
  (record.Chapter ≠ "" &&
     (match cm with | none => true | some m => m.Chapter ≠ record.Chapter),
   record.Paragraph ≠ "" &&
     (match cm with | none => true | some m => m.Paragraph ≠ record.Paragraph),
   record.Clause ≠ "" &&
     (match cm with | none => true | some m => m.Clause ≠ record.Clause))

/-- The block-closing if/elif/elif chain of the loop body: possibly emit
    the open block as a chunk and clear the accumulators.  Returns the new
    `(chunks, current_content, has_clause_in_block)` triple. -/
def closeBlock (uuids nows : Nat → String) (hashF : String → Nat)
    (source_file : String) (s : AsmState) (inc inp incl : Bool) :
    List Chunk × List String × Bool :=
  match s.current_metadata with
  | some cm =>
    if inc && !s.current_content.isEmpty then
      (s.chunks ++ [create_chunk_obj (uuids s.chunks.length)
          (nows s.chunks.length) hashF .chapterBoundary cm
          s.current_content source_file], [], false)
    else if inp && !s.current_content.isEmpty then
      (s.chunks ++ [create_chunk_obj (uuids s.chunks.length)
          (nows s.chunks.length) hashF .paragraphBoundary cm
          s.current_content source_file], [], false)
    else if incl && cm.Clause ≠ "" then
      (s.chunks ++ [create_chunk_obj (uuids s.chunks.length)
          (nows s.chunks.length) hashF .clauseBoundary cm
          s.current_content source_file], [], false)
    else (s.chunks, s.current_content, s.has_clause_in_block)
  | none => (s.chunks, s.current_content, s.has_clause_in_block)

/-- The metadata update of the loop body: start a new block from the record
    when a boundary was signalled (or no block was open), then refresh the
    fields the record sets. -/
def updateMeta (cm : Option Record) (record : Record) (inc inp incl : Bool) : Record :=
  let base := if inc || inp || incl || cm.isNone then record else cm.getD record
  { base with
    Document := if record.Document ≠ "" then record.Document else base.Document
    Section := if record.Section ≠ "" then record.Section else base.Section
    Chapter := if record.Chapter ≠ "" then record.Chapter else base.Chapter
    Paragraph := if record.Paragraph ≠ "" then record.Paragraph else base.Paragraph
    Clause := if record.Clause ≠ "" then record.Clause else base.Clause }

/-- The content append of the loop body (its line 178): the condition holds
    for every non-None record, because the stripped line is non-empty. -/
def appendContent (cc : List String) (record : Record) (line : List Char) : List String :=
  if record.Content ≠ "" || ((strip line).asString ≠ "") then
    cc ++ [if record.Content ≠ "" then record.Content else (strip line).asString]
  else cc

/-- One iteration of the `for line in lines` loop of `chunk_document`.
    The oracles are indexed by the number of chunks emitted so far. -/
def chunkStep (uuids nows : Nat → String) (hashF : String → Nat)
    (source_file : String) (s : AsmState) (line : List Char) : AsmState :=
  match parse_line s.parser line with
  | (st2, none) =>
    -- blank line / no-information line: append "" when a block is open
    let s := { s with parser := st2 }
    match s.current_metadata with
    | some cm =>
      if cm.Clause ≠ "" || cm.Paragraph ≠ "" then
        { s with current_content := s.current_content ++ [""] }
      else s
    | none => s
  | (st2, some record) =>
    let s := { s with parser := st2 }
    let flags := newFlags s.current_metadata record
    let closed := closeBlock uuids nows hashF source_file s flags.1 flags.2.1 flags.2.2
    { parser := st2
      chunks := closed.1
      current_content := appendContent closed.2.1 record line
      current_metadata := some (updateMeta s.current_metadata record flags.1 flags.2.1 flags.2.2)
      clause_count := s.clause_count
      has_clause_in_block := if record.Clause ≠ "" then true else closed.2.2 }

/-- Python `content.split('\n')`. -/
def splitNl : List Char → List (List Char)
  | [] => [[]]
  | c :: r =>
    if c = '\n' then [] :: splitNl r
    else
      match splitNl r with
      | [] => [[c]]
      | h :: t => (c :: h) :: t

/-- The state of `chunk_document` after its `for` loop (before the final
    flush). -/
def chunk_document_core (content : String) (source_file : String)
    (uuids nows : Nat → String) (hashF : String → Nat) : AsmState :=
  (splitNl content.toList).foldl (chunkStep uuids nows hashF source_file) initState

/-- The final-flush block of `chunk_document` (its lines 181–185), applied
    to the state left by the loop: emit one last chunk when a block is open
    with non-empty content and a `Paragraph` or `Clause` is tracked. -/
def finalFlushStep (uuids nows : Nat → String) (hashF : String → Nat)
    (source_file : String) (s : AsmState) : List Chunk :=
  match s.current_metadata with
  | some cm =>
    if !s.current_content.isEmpty then
      if cm.Paragraph ≠ "" || cm.Clause ≠ "" then
        s.chunks ++ [create_chunk_obj (uuids s.chunks.length)
          (nows s.chunks.length) hashF .finalFlush cm
          s.current_content source_file]
      else s.chunks
    else s.chunks
  | none => s.chunks

/-- `chunk_document(content, source_file)`: the chunk list it returns. -/
def chunk_document (content : String) (source_file : String)
    (uuids nows : Nat → String) (hashF : String → Nat) : List Chunk :=
  finalFlushStep uuids nows hashF source_file
    (chunk_document_core content source_file uuids nows hashF)

/-- Does `chunk_document` print its warning («Не найдено ни одного
    пункта»)?  The code tests `clause_count == 0 and len(chunks) == 0`
    after the final flush. -/
def chunk_document_warns (content : String) (source_file : String)
    (uuids nows : Nat → String) (hashF : String → Nat) : Bool :=
  (chunk_document_core content source_file uuids nows hashF).clause_count = 0
    && (chunk_document content source_file uuids nows hashF).isEmpty

/-- The result value of `generate_chunked_file` as a function of the file
    content (the I/O around it is elided): `None` when `chunk_document`
    found no chunks (the file is not written), the chunk list otherwise. -/
def generate_chunked_result (content : String) (source_file : String)
    (uuids nows : Nat → String) (hashF : String → Nat) : Option (List Chunk) :=
  let chunks := chunk_document content source_file uuids nows hashF
  if chunks.length = 0 then none else some chunks

/-- A line classified as a chapter marker by `parse_line` (prefix test,
    no «Таблица»/«Примечание», full pattern). -/
def isChapterLine (l : List Char) : Bool :=
  (classifyChapter l).isSome

/-- Erase the two nondeterministic fields of a chunk (`id`, `created_at`). -/
def scrub (ch : Chunk) : Chunk :=
  { ch with id := "", created_at := "" }

/-- Zero oracles, used to evaluate the model at concrete inputs. -/
def u0 : Nat → String := fun _ => ""

/-- Zero time oracle. -/
def n0 : Nat → String := fun _ => ""

/-- Zero hash oracle. -/
def h0 : String → Nat := fun _ => 0

/-! Helper lemmas about the character-level matchers. -/

lemma isSpace_ne_hash {c : Char} (h : isSpace c = true) : c ≠ '#' := by
  intro hc; subst hc; simp [isSpace] at h

lemma isSpace_ne_paren {c : Char} (h : isSpace c = true) : c ≠ '(' := by
  intro hc; subst hc; simp [isSpace] at h

lemma isDigit_ne_hash {c : Char} (h : c.isDigit = true) : c ≠ '#' := by
  intro hc; subst hc; simp [Char.isDigit] at h

lemma isDigit_ne_paren {c : Char} (h : c.isDigit = true) : c ≠ '(' := by
  intro hc; subst hc; simp [Char.isDigit] at h

lemma strip_cons_ne_nil {c : Char} {l : List Char} (h : isSpace c = false) :
    strip (c :: l) ≠ [] := by
  intro hnil
  unfold strip at hnil
  rw [List.dropWhile_cons, h] at hnil
  simp only [List.reverse_eq_nil_iff] at hnil
  rw [List.dropWhile_eq_nil_iff] at hnil
  have := hnil c (by simp)
  rw [h] at this
  exact Bool.false_ne_true this

lemma asString_ne_empty {l : List Char} (h : l ≠ []) : l.asString ≠ "" := by
  intro he
  apply h
  have : (List.asString l).data = ("" : String).data := by rw [he]
  simpa using this

lemma strip_glava_ne (s : String) : stripStr (("Глава ") ++ s) ≠ "" := by
  apply asString_ne_empty
  have hd : (("Глава ") ++ s).toList = 'Г' :: ("лава ".toList ++ s.toList) := by
    show (("Глава ") ++ s).data = _
    rw [String.data_append]
    rfl
  rw [hd]
  exact strip_cons_ne_nil (by decide)

lemma strip_razdel_ne (s : String) : stripStr (("Раздел ") ++ s) ≠ "" := by
  apply asString_ne_empty
  have hd : (("Раздел ") ++ s).toList = 'Р' :: ("аздел ".toList ++ s.toList) := by
    show (("Раздел ") ++ s).data = _
    rw [String.data_append]
    rfl
  rw [hd]
  exact strip_cons_ne_nil (by decide)

lemma dropLit_some {p l r : List Char} : dropLit p l = some r ↔ l = p ++ r := by
  induction p generalizing l with
  | nil => simp [dropLit]
  | cons x xs ih =>
    cases l with
    | nil => simp [dropLit]
    | cons c cs =>
      simp only [dropLit, List.cons_append, List.cons.injEq]
      by_cases hc : c = x
      · simp [hc, ih]
      · simp [hc]

lemma containsSub_of_starts {n l : List Char} (h : startsWithLit n l = true) :
    containsSub n l = true := by
  cases l with
  | nil => simpa [containsSub] using h
  | cons c cs => simp [containsSub, h]

lemma containsSub_append_left {n r : List Char} (x : List Char)
    (h : containsSub n r = true) : containsSub n (x ++ r) = true := by
  induction x with
  | nil => simpa using h
  | cons c cs ih => simp [containsSub, ih]

lemma matchWs1_some {l r : List Char} (h : matchWs1 l = some r) :
    ∃ c cs, l = c :: cs ∧ isSpace c = true ∧ r = cs.dropWhile isSpace := by
  cases l with
  | nil => simp [matchWs1] at h
  | cons c cs =>
    by_cases hc : isSpace c = true
    · refine ⟨c, cs, rfl, hc, ?_⟩
      simp [matchWs1, hc] at h
      exact h.symm
    · simp [matchWs1, hc] at h

lemma containsSub_dropWhile {n cs : List Char} {p : Char → Bool}
    (h : containsSub n (cs.dropWhile p) = true) : containsSub n cs = true := by
  have := List.takeWhile_append_dropWhile p cs
  calc containsSub n cs = containsSub n (cs.takeWhile p ++ cs.dropWhile p) := by rw [this]
    _ = true := containsSub_append_left _ h

lemma matchChapterPre_shape {l : List Char} (h : matchChapterPre l = true) :
    ∃ c cs, l = '#' :: c :: cs ∧ isSpace c = true := by
  unfold matchChapterPre at h
  cases hd : dropLit hash1 l with
  | none => rw [hd] at h; simp at h
  | some r =>
    rw [hd] at h
    simp only [Option.some_bind] at h
    cases hw : matchWs1 r with
    | none => rw [hw] at h; simp at h
    | some r1 =>
      obtain ⟨c, cs, rfl, hc, _⟩ := matchWs1_some hw
      exact ⟨c, cs, dropLit_some.mp hd, hc⟩

lemma matchChapterPre_glava {l : List Char} (h : matchChapterPre l = true) :
    containsSub glava l = true := by
  unfold matchChapterPre at h
  cases hd : dropLit hash1 l with
  | none => rw [hd] at h; simp at h
  | some r =>
    rw [hd] at h
    simp only [Option.some_bind] at h
    cases hw : matchWs1 r with
    | none => rw [hw] at h; simp at h
    | some r1 =>
      rw [hw] at h
      simp only [Option.some_bind] at h
      cases hg : dropLit glava r1 with
      | none => rw [hg] at h; simp at h
      | some r2 =>
        obtain ⟨c, cs, rfl, hc, hr1⟩ := matchWs1_some hw
        have h1 : containsSub glava r1 = true :=
          containsSub_of_starts (by simp [startsWithLit, hg])
        have h2 : containsSub glava cs = true := containsSub_dropWhile (hr1 ▸ h1)
        have h3 : containsSub glava (c :: cs) = true := by simp [containsSub, h2]
        rw [dropLit_some.mp hd]
        simp [hash1, containsSub]
        exact Or.inr (Or.inr h2)

lemma matchDocPat_none_head {c : Char} {cs : List Char} (hc : c ≠ '#') :
    matchDocPat (c :: cs) = none := by
  simp [matchDocPat, hash3, dropLit, hc]

lemma matchDocPat_none_second {c : Char} {cs : List Char} (hc : c ≠ '#') :
    matchDocPat ('#' :: c :: cs) = none := by
  simp [matchDocPat, hash3, dropLit, hc]

lemma matchDocPat_none_third {c : Char} {cs : List Char} (hc : c ≠ '#') :
    matchDocPat ('#' :: '#' :: c :: cs) = none := by
  simp [matchDocPat, hash3, dropLit, hc]

lemma matchSectionPat_none_head {c : Char} {cs : List Char} (hc : c ≠ '#') :
    matchSectionPat (c :: cs) = none := by
  simp [matchSectionPat, hash2, dropLit, hc]

lemma matchSectionPat_none_second {c : Char} {cs : List Char} (hc : c ≠ '#') :
    matchSectionPat ('#' :: c :: cs) = none := by
  simp [matchSectionPat, hash2, dropLit, hc]

lemma matchChapterPre_false_head {c : Char} {cs : List Char} (hc : c ≠ '#') :
    matchChapterPre (c :: cs) = false := by
  simp [matchChapterPre, hash1, dropLit, hc]

lemma classifyChapter_none_head {c : Char} {cs : List Char} (hc : c ≠ '#') :
    classifyChapter (c :: cs) = none := by
  simp [classifyChapter, matchChapterPre_false_head hc]

lemma classifyParagraph_none_head {c : Char} {cs : List Char} (hc : c ≠ '#') :
    classifyParagraph (c :: cs) = none := by
  simp [classifyParagraph, hash1, dropLit, hc]

lemma matchClauseParen_none_head {c : Char} {cs : List Char} (hc : c ≠ '(') :
    matchClauseParen (c :: cs) = none := by
  simp [matchClauseParen, dropLit, hc]

lemma matchDigits1_none {c : Char} {cs : List Char} (hc : c.isDigit = false) :
    matchDigits1 (c :: cs) = none := by
  simp [matchDigits1, List.takeWhile_cons, hc]

lemma matchClauseDot_none_head {c : Char} {cs : List Char} (hc : c.isDigit = false) :
    matchClauseDot (c :: cs) = none := by
  simp [matchClauseDot, matchDigits1_none hc]

lemma matchSectionPat_shape {l : List Char} {x : List Char × List Char}
    (h : matchSectionPat l = some x) :
    ∃ c cs, l = '#' :: '#' :: c :: cs ∧ isSpace c = true := by
  unfold matchSectionPat at h
  cases hd : dropLit hash2 l with
  | none => rw [hd] at h; simp at h
  | some r =>
    rw [hd] at h
    simp only [Option.some_bind] at h
    cases hw : matchWs1 r with
    | none => rw [hw] at h; simp at h
    | some r1 =>
      obtain ⟨c, cs, rfl, hc, _⟩ := matchWs1_some hw
      exact ⟨c, cs, dropLit_some.mp hd, hc⟩

lemma classifyChapter_pre {l : List Char} {x : List Char × List Char}
    (h : classifyChapter l = some x) : matchChapterPre l = true := by
  unfold classifyChapter at h
  split at h
  · rename_i hcond
    exact (Bool.and_eq_true_iff.mp (Bool.and_eq_true_iff.mp hcond).1).1
  · exact absurd h (by simp)

lemma classify_of_doc {l g1 : List Char} (h : matchDocPat l = some g1) :
    classify l = .doc g1 := by
  simp [classify, h]

lemma classify_of_sect {l g1 g2 : List Char} (h : matchSectionPat l = some (g1, g2)) :
    classify l = .sect g1 g2 := by
  obtain ⟨c, cs, rfl, hc⟩ := matchSectionPat_shape h
  rw [classify, matchDocPat_none_third (isSpace_ne_hash hc), h]

lemma classify_of_chap {l : List Char} {g1 g2 : List Char}
    (h : classifyChapter l = some (g1, g2)) : classify l = .chap g1 g2 := by
  obtain ⟨c, cs, rfl, hc⟩ := matchChapterPre_shape (classifyChapter_pre h)
  rw [classify, matchDocPat_none_second (isSpace_ne_hash hc),
    matchSectionPat_none_second (isSpace_ne_hash hc), h]

lemma matchDocPat_nil : matchDocPat [] = none := by
  simp [matchDocPat, hash3, dropLit]

lemma classifyChapter_none_of_bad {l : List Char}
    (h : containsSub tablica l = true ∨ containsSub primechanie l = true) :
    classifyChapter l = none := by
  unfold classifyChapter
  rcases h with h | h <;> simp [h]

lemma classifyParagraph_none_of_glava {l : List Char}
    (h : containsSub glava l = true) : classifyParagraph l = none := by
  unfold classifyParagraph
  cases hd : dropLit hash1 l with
  | none => simp
  | some r =>
    simp only [Option.some_bind]
    cases hw : matchWs1 r with
    | none => simp
    | some r2 =>
      simp only [Option.some_bind]
      split
      · rfl
      · simp [h]

/-- Claim C6: a section marker line resets `Chapter`, `Paragraph` and
    `Clause` to the empty string; a chapter marker line resets `Paragraph`
    and `Clause`; a document marker line resets none of the lower levels —
    for every parser state. -/
theorem c6_context_resets (st : Metadata) (raw : List Char) :
    (∀ g1 g2, matchSectionPat (strip raw) = some (g1, g2) →
      (parse_line st raw).1.Chapter = "" ∧ (parse_line st raw).1.Paragraph = "" ∧
        (parse_line st raw).1.Clause = "")
    ∧ (∀ g1 g2, classifyChapter (strip raw) = some (g1, g2) →
      (parse_line st raw).1.Paragraph = "" ∧ (parse_line st raw).1.Clause = "")
    ∧ (∀ g1, matchDocPat (strip raw) = some g1 →
      (parse_line st raw).1.Section = st.Section ∧
        (parse_line st raw).1.Chapter = st.Chapter ∧
        (parse_line st raw).1.Paragraph = st.Paragraph ∧
        (parse_line st raw).1.Clause = st.Clause) := by
  refine ⟨fun g1 g2 hs => ?_, fun g1 g2 hs => ?_, fun g1 hs => ?_⟩
  · obtain ⟨c, cs, hsh, hc⟩ := matchSectionPat_shape hs
    have hne : strip raw ≠ [] := by rw [hsh]; simp
    have hcl := classify_of_sect hs
    simp [parse_line, hcl, List.isEmpty_iff, hne]
  · obtain ⟨c, cs, hsh, hc⟩ := matchChapterPre_shape (classifyChapter_pre hs)
    have hne : strip raw ≠ [] := by rw [hsh]; simp
    have hcl := classify_of_chap hs
    simp [parse_line, hcl, List.isEmpty_iff, hne]
  · have hne : strip raw ≠ [] := by
      intro hnil
      rw [hnil, matchDocPat_nil] at hs
      exact Option.noConfusion hs
    have hcl := classify_of_doc hs
    simp [parse_line, hcl, List.isEmpty_iff, hne]

/-- Parser state with every level non-empty, to exercise the resets. -/
def st0 : Metadata := ⟨"д", "с", "г", "п", "к"⟩

theorem c6_context_resets_witness :
    ((parse_line st0 (("## Раздел 2 Интро").toList)).1.Chapter = "" ∧
     (parse_line st0 (("## Раздел 2 Интро").toList)).1.Paragraph = "" ∧
     (parse_line st0 (("## Раздел 2 Интро").toList)).1.Clause = "")
    ∧ ((parse_line st0 (("# Глава 1.2 - Имя").toList)).1.Paragraph = "" ∧
       (parse_line st0 (("# Глава 1.2 - Имя").toList)).1.Clause = "")
    ∧ ((parse_line st0 (("### Документ").toList)).1.Section = st0.Section ∧
       (parse_line st0 (("### Документ").toList)).1.Chapter = st0.Chapter ∧
       (parse_line st0 (("### Документ").toList)).1.Paragraph = st0.Paragraph ∧
       (parse_line st0 (("### Документ").toList)).1.Clause = st0.Clause) :=
  ⟨(c6_context_resets st0 _).1 ['2'] (("Интро").toList) (by decide),
   (c6_context_resets st0 _).2.1 ['1', '.', '2'] (("Имя").toList) (by decide),
   (c6_context_resets st0 _).2.2 (("Документ").toList) (by decide)⟩





/-- Claim C7: a `# Глава ...` line also containing «Таблица» or
    «Примечание» is never treated as a chapter marker: the parser state is
    left unchanged (in particular `Chapter` is not set), and the line is at
    most a body record. -/
theorem c7_table_note_no_chapter (st : Metadata) (raw : List Char)
    (hpre : matchChapterPre (strip raw) = true)
    (hbad : containsSub tablica (strip raw) = true ∨
      containsSub primechanie (strip raw) = true) :
    (parse_line st raw).1 = st ∧
      ((parse_line st raw).2 = none ∨
        (parse_line st raw).2 = some (make_record st (strip raw).asString)) := by
  obtain ⟨c, cs, hsh, hc⟩ := matchChapterPre_shape hpre
  have hne : strip raw ≠ [] := by rw [hsh]; simp
  have hdoc : matchDocPat (strip raw) = none := by
    rw [hsh]; exact matchDocPat_none_second (isSpace_ne_hash hc)
  have hsect : matchSectionPat (strip raw) = none := by
    rw [hsh]; exact matchSectionPat_none_second (isSpace_ne_hash hc)
  have hchap : classifyChapter (strip raw) = none := classifyChapter_none_of_bad hbad
  have hpara : classifyParagraph (strip raw) = none :=
    classifyParagraph_none_of_glava (matchChapterPre_glava hpre)
  have hcp : matchClauseParen (strip raw) = none := by
    rw [hsh]; exact matchClauseParen_none_head (by decide)
  have hcd : matchClauseDot (strip raw) = none := by
    rw [hsh]; exact matchClauseDot_none_head (by decide)
  have hcl : classify (strip raw) = .other := by
    rw [classify, hdoc, hsect, hchap, hpara, hcp, hcd]
  simp only [parse_line, hcl, List.isEmpty_iff]
  rw [if_neg (by simpa [List.isEmpty_iff] using hne)]
  constructor
  · split <;> rfl
  · split
    · right; rfl
    · left; rfl

/-- A line matching the chapter prefix and containing «Таблица». -/
def c7line : List Char := ("# Глава Таблица 1.1 - не глава").toList

theorem c7_table_note_no_chapter_witness :
    (parse_line st0 c7line).1 = st0 ∧
      ((parse_line st0 c7line).2 = none ∨
        (parse_line st0 c7line).2 = some (make_record st0 (strip c7line).asString)) :=
  c7_table_note_no_chapter st0 c7line (by decide) (Or.inl (by decide))

lemma matchDigits1_append {d : List Char} {x : Char} {r : List Char}
    (hne : d ≠ []) (hall : ∀ c ∈ d, Char.isDigit c = true)
    (hx : Char.isDigit x = false) :
    matchDigits1 (d ++ x :: r) = some (d, x :: r) := by
  unfold matchDigits1
  rw [List.takeWhile_append_of_pos hall, List.dropWhile_append_of_pos hall]
  rw [List.takeWhile_cons, List.dropWhile_cons, hx]
  simp only [Bool.false_eq_true, if_false, List.append_nil]

lemma matchClauseParen_bare {d1 d2 d3 : List Char}
    (h1 : d1 ≠ []) (h2 : d2 ≠ []) (h3 : d3 ≠ [])
    (hd1 : ∀ c ∈ d1, Char.isDigit c = true) (hd2 : ∀ c ∈ d2, Char.isDigit c = true)
    (hd3 : ∀ c ∈ d3, Char.isDigit c = true) :
    matchClauseParen ('(' :: (d1 ++ '.' :: (d2 ++ '.' :: (d3 ++ [')'])))) = none := by
  unfold matchClauseParen
  rw [show dropLit ['('] ('(' :: (d1 ++ '.' :: (d2 ++ '.' :: (d3 ++ [')'])))) =
    some (d1 ++ '.' :: (d2 ++ '.' :: (d3 ++ [')']))) from by simp [dropLit]]
  simp only [Option.some_bind]
  rw [matchDigits1_append h1 hd1 (by decide)]
  simp only [Option.some_bind]
  rw [show dropLit ['.'] ('.' :: (d2 ++ '.' :: (d3 ++ [')']))) =
    some (d2 ++ '.' :: (d3 ++ [')'])) from by simp [dropLit]]
  simp only [Option.some_bind]
  rw [matchDigits1_append h2 hd2 (by decide)]
  simp only [Option.some_bind]
  rw [show dropLit ['.'] ('.' :: (d3 ++ [')'])) = some (d3 ++ [')']) from by simp [dropLit]]
  simp only [Option.some_bind]
  rw [show (d3 ++ [')'] : List Char) = d3 ++ ')' :: [] from rfl,
    matchDigits1_append h3 hd3 (by decide)]
  simp only [Option.some_bind]
  simp [dropLit, matchWs1]

lemma matchClauseDot_bare {d1 d2 d3 : List Char}
    (h1 : d1 ≠ []) (h2 : d2 ≠ []) (h3 : d3 ≠ [])
    (hd1 : ∀ c ∈ d1, Char.isDigit c = true) (hd2 : ∀ c ∈ d2, Char.isDigit c = true)
    (hd3 : ∀ c ∈ d3, Char.isDigit c = true) :
    matchClauseDot (d1 ++ '.' :: (d2 ++ '.' :: (d3 ++ ['.']))) = none := by
  unfold matchClauseDot
  rw [matchDigits1_append h1 hd1 (by decide)]
  simp only [Option.some_bind]
  rw [show dropLit ['.'] ('.' :: (d2 ++ '.' :: (d3 ++ ['.']))) =
    some (d2 ++ '.' :: (d3 ++ ['.'])) from by simp [dropLit]]
  simp only [Option.some_bind]
  rw [matchDigits1_append h2 hd2 (by decide)]
  simp only [Option.some_bind]
  rw [show dropLit ['.'] ('.' :: (d3 ++ ['.'])) = some (d3 ++ ['.']) from by simp [dropLit]]
  simp only [Option.some_bind]
  rw [show (d3 ++ ['.'] : List Char) = d3 ++ '.' :: [] from rfl,
    matchDigits1_append h3 hd3 (by decide)]
  simp only [Option.some_bind]
  simp [dropLit, matchWs1]





/-- Claim C10: a line that is just a bare three-level clause identifier —
    `(N.N.N)` or `N.N.N.` with nothing after it — is not classified as a
    clause marker: the parser state (in particular `Clause`) is unchanged
    and the line is at most a body record. -/
theorem c10_bare_clause_id (st : Metadata) (raw : List Char) (d1 d2 d3 : List Char)
    (h1 : d1 ≠ []) (h2 : d2 ≠ []) (h3 : d3 ≠ [])
    (hd1 : ∀ c ∈ d1, Char.isDigit c = true) (hd2 : ∀ c ∈ d2, Char.isDigit c = true)
    (hd3 : ∀ c ∈ d3, Char.isDigit c = true)
    (hshape : strip raw = '(' :: (d1 ++ '.' :: (d2 ++ '.' :: (d3 ++ [')']))) ∨
      strip raw = d1 ++ '.' :: (d2 ++ '.' :: (d3 ++ ['.']))) :
    (parse_line st raw).1 = st ∧
      ((parse_line st raw).2 = none ∨
        (parse_line st raw).2 = some (make_record st (strip raw).asString)) := by
  have hcl : classify (strip raw) = .other := by
    rcases hshape with hsh | hsh
    · rw [hsh, classify,
        matchDocPat_none_head (by decide),
        matchSectionPat_none_head (by decide),
        classifyChapter_none_head (by decide),
        classifyParagraph_none_head (by decide),
        matchClauseParen_bare h1 h2 h3 hd1 hd2 hd3,
        matchClauseDot_none_head (by decide)]
    · obtain ⟨a, as, rfl⟩ : ∃ a as, d1 = a :: as := by
        cases d1 with
        | nil => exact absurd rfl h1
        | cons a as => exact ⟨a, as, rfl⟩
      have ha : Char.isDigit a = true := hd1 a (by simp)
      have hdot := matchClauseDot_bare h1 h2 h3 hd1 hd2 hd3
      rw [List.cons_append] at hdot
      rw [hsh, List.cons_append, classify,
        matchDocPat_none_head (isDigit_ne_hash ha),
        matchSectionPat_none_head (isDigit_ne_hash ha),
        classifyChapter_none_head (isDigit_ne_hash ha),
        classifyParagraph_none_head (isDigit_ne_hash ha),
        matchClauseParen_none_head (isDigit_ne_paren ha),
        hdot]
  have hne : strip raw ≠ [] := by
    rcases hshape with hsh | hsh
    · rw [hsh]; simp
    · rw [hsh]
      cases d1 with
      | nil => exact absurd rfl h1
      | cons a as => simp
  simp only [parse_line, hcl]
  rw [if_neg (by simpa [List.isEmpty_iff] using hne)]
  constructor
  · split <;> rfl
  · split
    · right; rfl
    · left; rfl

theorem c10_bare_clause_id_witness :
    (parse_line st0 (("(1.2.3)").toList)).1 = st0 ∧
      ((parse_line st0 (("(1.2.3)").toList)).2 = none ∨
        (parse_line st0 (("(1.2.3)").toList)).2 =
          some (make_record st0 (strip (("(1.2.3)").toList)).asString)) :=
  c10_bare_clause_id st0 (("(1.2.3)").toList) ['1'] ['2'] ['3']
    (by decide) (by decide) (by decide) (by decide) (by decide) (by decide)
    (Or.inl (by decide))

lemma splitNl_ne_nil (l : List Char) : splitNl l ≠ [] := by
  cases l with
  | nil => simp [splitNl]
  | cons c r =>
    unfold splitNl
    by_cases hc : c = '\n'
    · simp [hc]
    · simp only [hc, if_false]
      cases splitNl r <;> simp

lemma mem_of_mem_splitNl {l : List Char} {line : List Char} {c : Char}
    (hline : line ∈ splitNl l) (hc : c ∈ line) : c ∈ l := by
  induction l generalizing line with
  | nil =>
    simp [splitNl] at hline
    subst hline
    simp at hc
  | cons a r ih =>
    unfold splitNl at hline
    by_cases ha : a = '\n'
    · simp only [ha, if_true] at hline
      rcases List.mem_cons.mp hline with h | h
      · subst h; simp at hc
      · exact List.mem_cons_of_mem _ (ih h hc)
    · simp only [ha, if_false] at hline
      cases hsp : splitNl r with
      | nil => exact absurd hsp (splitNl_ne_nil r)
      | cons h t =>
        rw [hsp] at hline
        rcases List.mem_cons.mp hline with he | he
        · subst he
          rcases List.mem_cons.mp hc with hce | hce
          · subst hce; simp
          · exact List.mem_cons_of_mem _ (ih (by rw [hsp]; exact List.mem_cons_self h t) hce)
        · exact List.mem_cons_of_mem _ (ih (by rw [hsp]; exact List.mem_cons_of_mem _ he) hc)

lemma strip_eq_nil_of_all {l : List Char} (h : ∀ c ∈ l, isSpace c = true) :
    strip l = [] := by
  unfold strip
  rw [List.dropWhile_eq_nil_iff.mpr h]
  simp

lemma parse_line_blank {st : Metadata} {raw : List Char} (h : strip raw = []) :
    parse_line st raw = (st, none) := by
  simp [parse_line, h]

lemma chunkStep_blank (u n : Nat → String) (hf : String → Nat) (src : String)
    {line : List Char} (h : strip line = []) :
    chunkStep u n hf src initState line = initState := by
  unfold chunkStep
  rw [parse_line_blank h]
  rfl

lemma foldl_blank (u n : Nat → String) (hf : String → Nat) (src : String)
    {lines : List (List Char)} (h : ∀ l ∈ lines, strip l = []) :
    lines.foldl (chunkStep u n hf src) initState = initState := by
  induction lines with
  | nil => rfl
  | cons l ls ih =>
    rw [List.foldl_cons, chunkStep_blank u n hf src (h l (by simp))]
    exact ih (fun x hx => h x (List.mem_cons_of_mem _ hx))

/-- Claim C8: an empty or whitespace-only input yields zero chunks, the
    warning condition fires, and `generate_chunked_file` returns the null
    result (no output file). -/
theorem c8_empty_input (content source_file : String) (u n : Nat → String)
    (hf : String → Nat) (hws : ∀ c ∈ content.toList, isSpace c = true) :
    chunk_document content source_file u n hf = [] ∧
      chunk_document_warns content source_file u n hf = true ∧
      generate_chunked_result content source_file u n hf = none := by
  have hlines : ∀ l ∈ splitNl content.toList, strip l = [] := by
    intro l hl
    exact strip_eq_nil_of_all (fun c hc => hws c (mem_of_mem_splitNl hl hc))
  have hcore : chunk_document_core content source_file u n hf = initState := by
    unfold chunk_document_core
    exact foldl_blank u n hf source_file hlines
  have hcd : chunk_document content source_file u n hf = [] := by
    unfold chunk_document
    rw [hcore]
    rfl
  refine ⟨hcd, ?_, ?_⟩
  · unfold chunk_document_warns
    rw [hcore, hcd]
    rfl
  · unfold generate_chunked_result
    rw [hcd]
    rfl

theorem c8_empty_input_witness :
    chunk_document ("  \n\t\n ") ("f") u0 n0 h0 = [] ∧
      chunk_document_warns ("  \n\t\n ") ("f") u0 n0 h0 = true ∧
      generate_chunked_result ("  \n\t\n ") ("f") u0 n0 h0 = none :=
  c8_empty_input ("  \n\t\n ") ("f") u0 n0 h0 (by decide)

/-- Two bare clause lines with no chapter anywhere. -/
def c1input : String := "(1.1.1) первый\n(1.1.2) второй"

/-- Claim C1 fails on the code: the clause-boundary chunk for `1.1.1`
    has non-empty `Clause` and empty `Chapter`. -/
theorem c1_counterexample :
    ¬ (∀ ch ∈ chunk_document c1input (("f")) u0 n0 h0,
        ch.metadata.Clause ≠ "" → ch.metadata.Chapter ≠ "") := by decide

/-- Front matter: a document title, then a chapter marker, then a clause. -/
def c2input : String := "### Документ\n# Глава 1.1 - Имя\n(1.1.1) текст"

/-- Claim C2 fails on the code: the chapter-boundary emission flushes the
    document-title front matter as a chunk with empty `Clause` and empty
    `Paragraph`. -/
theorem c2_counterexample :
    ¬ (∀ ch ∈ chunk_document c2input (("f")) u0 n0 h0,
        ch.metadata.Clause ≠ "" ∨ ch.metadata.Paragraph ≠ "") := by decide

/-- One chapter marker, one paragraph heading, three clause lines each
    followed by one body line. -/
def c3input : String :=
  "# Глава 1.1 - Общие положения\n# Термины\n(1.1.1) Первый пункт\nпродолжение один\n(1.1.2) Второй пункт\nпродолжение два\n(1.1.3) Третий пункт\nпродолжение три"

/-- Claim C3 fails on the code: the document of one chapter, one paragraph
    heading and three clause lines yields 4 chunks, not 3. -/
theorem c3_counterexample :
    (chunk_document c3input (("f")) u0 n0 h0).length ≠ 3 ∧
      (chunk_document c3input (("f")) u0 n0 h0).length = 4 := by decide

/-- Amended claim C3: that document yields exactly 4 chunks — a
    front-matter chunk holding the chapter marker line (empty `Paragraph`
    and `Clause`, emitted at the paragraph boundary), then the 3 clause
    chunks sharing `Chapter` and `Paragraph` with pairwise distinct
    `Clause` identifiers. -/
theorem c3_amended :
    ((chunk_document c3input (("f")) u0 n0 h0).map fun ch => ch.metadata.Chapter) =
      [("Глава 1.1 - Общие положения"), ("Глава 1.1 - Общие положения"),
       ("Глава 1.1 - Общие положения"), ("Глава 1.1 - Общие положения")] ∧
    ((chunk_document c3input (("f")) u0 n0 h0).map fun ch => ch.metadata.Paragraph) =
      [(""), ("Термины"), ("Термины"), ("Термины")] ∧
    ((chunk_document c3input (("f")) u0 n0 h0).map fun ch => ch.metadata.Clause) =
      [(""), ("1.1.1"), ("1.1.2"), ("1.1.3")] ∧
    ((chunk_document c3input (("f")) u0 n0 h0).map fun ch => ch.site) =
      [.paragraphBoundary, .clauseBoundary, .clauseBoundary, .finalFlush] := by
  refine ⟨by decide, by decide, by decide, by decide⟩

/-- A chapter marker line followed by one clause line. -/
def c4input : String := "# Глава 1.1 - Заголовок\n(1.1.1) текст"

/-- Claim C4 fails on the code: the chapter marker line's raw text ends up
    in the accumulated body of the emitted chunk (the append condition at
    line 178 holds for every non-None record). -/
theorem c4_counterexample :
    ((chunk_document c4input (("f")) u0 n0 h0).map fun ch => ch.content) =
      [("Глава 1.1 - Заголовок. Пункт 1.1.1.\n\n# Глава 1.1 - Заголовок\n(1.1.1) текст")] ∧
    ((chunk_document c4input (("f")) u0 n0 h0).map fun ch =>
        containsSubStr (("# Глава 1.1 - Заголовок")) ch.content) = [true] := by
  refine ⟨by decide, by decide⟩

lemma appendContent_eq (cc : List String) (r : Record) (line : List Char)
    (hstr : (strip line).asString ≠ "") :
    appendContent cc r line =
      cc ++ [if r.Content ≠ "" then r.Content else (strip line).asString] := by
  unfold appendContent
  rw [if_pos (by simp [hstr])]

lemma parse_line_some_strip {st : Metadata} {raw : List Char} {r : Record}
    (h : (parse_line st raw).2 = some r) : strip raw ≠ [] := by
  intro hnil
  rw [parse_line_blank hnil] at h
  exact Option.noConfusion h

/-- Amended claim C4: whenever `parse_line` returns a record, the loop body
    appends exactly one element to the accumulated content — the record's
    `content` when it is non-empty (clause and body lines), otherwise the
    raw stripped line (structural marker lines). -/
theorem c4_amended (u n : Nat → String) (hf : String → Nat) (src : String)
    (s : AsmState) (line : List Char) (r : Record)
    (h : (parse_line s.parser line).2 = some r) :
    ∃ pre, (chunkStep u n hf src s line).current_content =
      pre ++ [if r.Content ≠ "" then r.Content else (strip line).asString] := by
  have hstr : (strip line).asString ≠ "" :=
    asString_ne_empty (parse_line_some_strip h)
  have hp : parse_line s.parser line = ((parse_line s.parser line).1, some r) := by
    rw [← h]
  unfold chunkStep
  rw [hp]
  simp only []
  rw [appendContent_eq _ _ _ hstr]
  exact ⟨_, rfl⟩

/-- The record `parse_line` produces for the line `# Глава 1.1 - Тест`
    from the initial state. -/
def c4rec : Record := ⟨"", "", ("Глава 1.1 - Тест"), "", "", ""⟩

theorem c4_amended_witness :
    ∃ pre, (chunkStep u0 n0 h0 (("f")) initState (("# Глава 1.1 - Тест").toList)).current_content =
      pre ++ [if c4rec.Content ≠ "" then c4rec.Content
              else (strip (("# Глава 1.1 - Тест").toList)).asString] :=
  c4_amended u0 n0 h0 (("f")) initState (("# Глава 1.1 - Тест").toList) c4rec (by decide)

lemma finalFlushStep_pos (u n : Nat → String) (hf : String → Nat) (src : String)
    (s : AsmState) (m : Record) (hm : s.current_metadata = some m)
    (hne : s.current_content ≠ []) (hcp : m.Clause ≠ "" ∨ m.Paragraph ≠ "") :
    finalFlushStep u n hf src s = s.chunks ++
      [create_chunk_obj (u s.chunks.length) (n s.chunks.length) hf .finalFlush m
        s.current_content src] := by
  unfold finalFlushStep
  rw [hm]
  simp only []
  rw [if_pos (by simpa [List.isEmpty_iff] using hne)]
  rw [if_pos (by rcases hcp with h | h <;> simp [h])]

lemma finalFlushStep_neg (u n : Nat → String) (hf : String → Nat) (src : String)
    (s : AsmState)
    (hfail : ∀ m, s.current_metadata = some m →
      s.current_content = [] ∨ (m.Clause = "" ∧ m.Paragraph = "")) :
    finalFlushStep u n hf src s = s.chunks := by
  unfold finalFlushStep
  cases hm : s.current_metadata with
  | none => rfl
  | some m =>
    simp only []
    rcases hfail m hm with hcc | ⟨hcl, hpa⟩
    · rw [if_neg (by simp [hcc, List.isEmpty_iff])]
    · by_cases hcc2 : s.current_content = []
      · rw [if_neg (by simp [hcc2, List.isEmpty_iff])]
      · rw [if_pos (by simp [List.isEmpty_iff, hcc2])]
        rw [if_neg (by simp [hcl, hpa])]

/-- Claim C5: at end of stream, one final chunk is emitted exactly when the
    accumulated body is non-empty and the tracked context has a non-empty
    `Clause` or `Paragraph`; otherwise no trailing chunk is emitted and the
    buffered body is discarded. -/
theorem c5_final_flush (content src : String) (u n : Nat → String) (hf : String → Nat) :
    (∀ m, (chunk_document_core content src u n hf).current_metadata = some m →
      (chunk_document_core content src u n hf).current_content ≠ [] →
      (m.Clause ≠ "" ∨ m.Paragraph ≠ "") →
      chunk_document content src u n hf =
        (chunk_document_core content src u n hf).chunks ++
          [create_chunk_obj (u (chunk_document_core content src u n hf).chunks.length)
            (n (chunk_document_core content src u n hf).chunks.length) hf .finalFlush m
            (chunk_document_core content src u n hf).current_content src])
    ∧ ((∀ m, (chunk_document_core content src u n hf).current_metadata = some m →
        (chunk_document_core content src u n hf).current_content = [] ∨
          (m.Clause = "" ∧ m.Paragraph = "")) →
      chunk_document content src u n hf =
        (chunk_document_core content src u n hf).chunks) := by
  constructor
  · intro m hm hne hcp
    unfold chunk_document
    exact finalFlushStep_pos u n hf src _ m hm hne hcp
  · intro hfail
    unfold chunk_document
    exact finalFlushStep_neg u n hf src _ hfail

theorem c5_final_flush_witness :
    chunk_document (("(1.1.1) текст")) (("f")) u0 n0 h0 =
      (chunk_document_core (("(1.1.1) текст")) (("f")) u0 n0 h0).chunks ++
        [create_chunk_obj
          (u0 (chunk_document_core (("(1.1.1) текст")) (("f")) u0 n0 h0).chunks.length)
          (n0 (chunk_document_core (("(1.1.1) текст")) (("f")) u0 n0 h0).chunks.length)
          h0 .finalFlush ⟨"", "", "", "", ("1.1.1"), ("(1.1.1) текст")⟩
          (chunk_document_core (("(1.1.1) текст")) (("f")) u0 n0 h0).current_content (("f"))] :=
  (c5_final_flush (("(1.1.1) текст")) (("f")) u0 n0 h0).1
    ⟨"", "", "", "", ("1.1.1"), ("(1.1.1) текст")⟩
    (by decide) (by decide) (Or.inl (by decide))

lemma create_site (a b : String) (c : String → Nat) (site : EmitSite) (m : Record)
    (cc : List String) (src : String) :
    (create_chunk_obj a b c site m cc src).site = site := rfl

lemma create_Clause (a b : String) (c : String → Nat) (site : EmitSite) (m : Record)
    (cc : List String) (src : String) :
    (create_chunk_obj a b c site m cc src).metadata.Clause = m.Clause := rfl

lemma create_Paragraph (a b : String) (c : String → Nat) (site : EmitSite) (m : Record)
    (cc : List String) (src : String) :
    (create_chunk_obj a b c site m cc src).metadata.Paragraph = m.Paragraph := rfl

lemma create_Chapter (a b : String) (c : String → Nat) (site : EmitSite) (m : Record)
    (cc : List String) (src : String) :
    (create_chunk_obj a b c site m cc src).metadata.Chapter = m.Chapter := rfl

lemma closeBlock_mem {u n : Nat → String} {hf : String → Nat} {src : String}
    {s : AsmState} {inc inp incl : Bool} {ch : Chunk}
    (hch : ch ∈ (closeBlock u n hf src s inc inp incl).1) :
    ch ∈ s.chunks ∨ ∃ cm, s.current_metadata = some cm ∧
      (ch = create_chunk_obj (u s.chunks.length) (n s.chunks.length) hf
          .chapterBoundary cm s.current_content src ∨
       ch = create_chunk_obj (u s.chunks.length) (n s.chunks.length) hf
          .paragraphBoundary cm s.current_content src ∨
       (ch = create_chunk_obj (u s.chunks.length) (n s.chunks.length) hf
          .clauseBoundary cm s.current_content src ∧ cm.Clause ≠ "")) := by
  unfold closeBlock at hch
  cases hm : s.current_metadata with
  | none => rw [hm] at hch; exact Or.inl hch
  | some cm =>
    rw [hm] at hch
    simp only [] at hch
    split at hch
    · rcases List.mem_append.mp hch with h | h
      · exact Or.inl h
      · exact Or.inr ⟨cm, rfl, Or.inl (List.mem_singleton.mp h)⟩
    · split at hch
      · rcases List.mem_append.mp hch with h | h
        · exact Or.inl h
        · exact Or.inr ⟨cm, rfl, Or.inr (Or.inl (List.mem_singleton.mp h))⟩
      · split at hch
        · rename_i hcond
          rcases List.mem_append.mp hch with h | h
          · exact Or.inl h
          · refine Or.inr ⟨cm, rfl, Or.inr (Or.inr ⟨List.mem_singleton.mp h, ?_⟩)⟩
            have := (Bool.and_eq_true_iff.mp hcond).2
            simpa using this
        · exact Or.inl hch

lemma chunkStep_chunks_mem {u n : Nat → String} {hf : String → Nat} {src : String}
    {s : AsmState} {line : List Char} {ch : Chunk}
    (hch : ch ∈ (chunkStep u n hf src s line).chunks) :
    ch ∈ s.chunks ∨ ∃ cm, s.current_metadata = some cm ∧
      (ch.site = .chapterBoundary ∨ ch.site = .paragraphBoundary ∨
       (ch.site = .clauseBoundary ∧ ch.metadata.Clause = cm.Clause ∧ cm.Clause ≠ "")) := by
  unfold chunkStep at hch
  cases hp : parse_line s.parser line with
  | mk st2 orec =>
    rw [hp] at hch
    cases orec with
    | none =>
      simp only [] at hch
      split at hch
      · split at hch <;> exact Or.inl hch
      · exact Or.inl hch
    | some record =>
      simp only [] at hch
      rcases closeBlock_mem hch with h | ⟨cm, hcm, hc | hc | ⟨hc, hne⟩⟩
      · exact Or.inl h
      · exact Or.inr ⟨cm, hcm, Or.inl (by rw [hc]; rfl)⟩
      · exact Or.inr ⟨cm, hcm, Or.inr (Or.inl (by rw [hc]; rfl))⟩
      · exact Or.inr ⟨cm, hcm, Or.inr (Or.inr ⟨by rw [hc]; rfl, by rw [hc]; rfl, hne⟩)⟩

lemma foldl_siteOk {u n : Nat → String} {hf : String → Nat} {src : String}
    {lines : List (List Char)} {s : AsmState}
    (hin : ∀ ch ∈ s.chunks,
      (ch.site = EmitSite.clauseBoundary ∨ ch.site = EmitSite.finalFlush) →
        ch.metadata.Clause ≠ "" ∨ ch.metadata.Paragraph ≠ "") :
    ∀ ch ∈ (lines.foldl (chunkStep u n hf src) s).chunks,
      (ch.site = EmitSite.clauseBoundary ∨ ch.site = EmitSite.finalFlush) →
        ch.metadata.Clause ≠ "" ∨ ch.metadata.Paragraph ≠ "" := by
  induction lines generalizing s with
  | nil => exact hin
  | cons l ls ih =>
    rw [List.foldl_cons]
    apply ih
    intro ch hch hsite
    rcases chunkStep_chunks_mem hch with h | ⟨cm, hcm, hs | hs | ⟨hs, hclev, hne⟩⟩
    · exact hin ch h hsite
    · rcases hsite with he | he <;> rw [hs] at he <;> exact EmitSite.noConfusion he
    · rcases hsite with he | he <;> rw [hs] at he <;> exact EmitSite.noConfusion he
    · exact Or.inl (hclev ▸ hne)

/-- Amended claim C2: the Clause-or-Paragraph invariant holds for every
    chunk emitted at a clause boundary or by the final end-of-stream flush;
    chunks emitted at chapter or paragraph boundaries can have both fields
    empty (see the counterexample). -/
theorem c2_amended (content src : String) (u n : Nat → String) (hf : String → Nat)
    (ch : Chunk) (hch : ch ∈ chunk_document content src u n hf)
    (hsite : ch.site = EmitSite.clauseBoundary ∨ ch.site = EmitSite.finalFlush) :
    ch.metadata.Clause ≠ "" ∨ ch.metadata.Paragraph ≠ "" := by
  have hcore : ∀ c ∈ (chunk_document_core content src u n hf).chunks,
      (c.site = EmitSite.clauseBoundary ∨ c.site = EmitSite.finalFlush) →
        c.metadata.Clause ≠ "" ∨ c.metadata.Paragraph ≠ "" := by
    unfold chunk_document_core
    exact foldl_siteOk (by intro c hc; exact absurd hc (by simp [initState]))
  unfold chunk_document finalFlushStep at hch
  cases hm : (chunk_document_core content src u n hf).current_metadata with
  | none => rw [hm] at hch; exact hcore ch hch hsite
  | some cm =>
    rw [hm] at hch
    simp only [] at hch
    split at hch
    · split at hch
      · rename_i hguard
        rcases List.mem_append.mp hch with h | h
        · exact hcore ch h hsite
        · have he := List.mem_singleton.mp h
          rw [he, create_Clause, create_Paragraph]
          rcases Bool.or_eq_true_iff.mp hguard with hg | hg
          · exact Or.inr (by simpa using hg)
          · exact Or.inl (by simpa using hg)
      · exact hcore ch hch hsite
    · exact hcore ch hch hsite

theorem c2_amended_witness :
    ((chunk_document c1input (("f")) u0 n0 h0).get ⟨0, by decide⟩).metadata.Clause ≠ "" ∨
      ((chunk_document c1input (("f")) u0 n0 h0).get ⟨0, by decide⟩).metadata.Paragraph ≠ "" :=
  c2_amended c1input (("f")) u0 n0 h0 _ (by decide) (Or.inl (by decide))

lemma classify_sect_inv {l g1 g2 : List Char} (h : classify l = .sect g1 g2) :
    matchSectionPat l = some (g1, g2) := by
  unfold classify at h
  cases hd : matchDocPat l with
  | some g => rw [hd] at h; exact LineClass.noConfusion h
  | none =>
    rw [hd] at h
    cases hs : matchSectionPat l with
    | some p =>
      obtain ⟨a, b⟩ := p
      rw [hs] at h
      injection h with h1 h2
      rw [h1, h2]
    | none =>
      rw [hs] at h
      exfalso
      cases hc : classifyChapter l with
      | some p =>
        obtain ⟨a, b⟩ := p
        rw [hc] at h
        exact LineClass.noConfusion h
      | none =>
        rw [hc] at h
        cases hpp : classifyParagraph l with
        | some t => rw [hpp] at h; exact LineClass.noConfusion h
        | none =>
          rw [hpp] at h
          cases hc1 : matchClauseParen l with
          | some g => rw [hc1] at h; exact LineClass.noConfusion h
          | none =>
            rw [hc1] at h
            cases hc2 : matchClauseDot l with
            | some g => rw [hc2] at h; exact LineClass.noConfusion h
            | none => rw [hc2] at h; exact LineClass.noConfusion h

lemma chapterTitle_ne (g1 g2 : List Char) : chapterTitle g1 g2 ≠ "" := by
  simp only [chapterTitle]
  split
  · rw [show (("Глава ") ++ g1.asString ++ (" - ") ++ (strip g2).asString) =
      ("Глава ") ++ (g1.asString ++ ((" - ") ++ (strip g2).asString)) from by
        rw [String.append_assoc, String.append_assoc]]
    exact strip_glava_ne _
  · exact strip_glava_ne _

lemma parse_line_record_shape {st st2 : Metadata} {raw : List Char} {r : Record}
    (h : parse_line st raw = (st2, some r)) : ∃ x, r = make_record st2 x := by
  unfold parse_line at h
  by_cases he : (strip raw).isEmpty
  · rw [if_pos he] at h
    simp at h
  · rw [if_neg he] at h
    cases hcl : classify (strip raw) with
    | doc g1 =>
      rw [hcl] at h
      simp only [Prod.mk.injEq, Option.some.injEq] at h
      exact ⟨"", by rw [← h.2, ← h.1]⟩
    | sect g1 g2 =>
      rw [hcl] at h
      simp only [Prod.mk.injEq, Option.some.injEq] at h
      exact ⟨"", by rw [← h.2, ← h.1]⟩
    | chap g1 g2 =>
      rw [hcl] at h
      simp only [Prod.mk.injEq, Option.some.injEq] at h
      exact ⟨"", by rw [← h.2, ← h.1]⟩
    | para t =>
      rw [hcl] at h
      simp only [Prod.mk.injEq, Option.some.injEq] at h
      exact ⟨"", by rw [← h.2, ← h.1]⟩
    | clauseParen g1 =>
      rw [hcl] at h
      simp only [Prod.mk.injEq, Option.some.injEq] at h
      exact ⟨(strip raw).asString, by rw [← h.2, ← h.1]⟩
    | clauseDot g1 =>
      rw [hcl] at h
      simp only [Prod.mk.injEq, Option.some.injEq] at h
      exact ⟨(strip raw).asString, by rw [← h.2, ← h.1]⟩
    | other =>
      rw [hcl] at h
      simp only [] at h
      split at h
      · simp only [Prod.mk.injEq, Option.some.injEq] at h
        exact ⟨(strip raw).asString, by rw [← h.2, ← h.1]⟩
      · simp at h

lemma parse_line_Chapter {st : Metadata} {raw : List Char}
    (hsec : matchSectionPat (strip raw) = none) :
    (parse_line st raw).1.Chapter = st.Chapter ∨ (parse_line st raw).1.Chapter ≠ "" := by
  unfold parse_line
  by_cases he : (strip raw).isEmpty
  · rw [if_pos he]
    exact Or.inl rfl
  · rw [if_neg he]
    cases hcl : classify (strip raw) with
    | doc g1 => exact Or.inl rfl
    | sect g1 g2 => exact absurd (classify_sect_inv hcl) (by simp [hsec])
    | chap g1 g2 => exact Or.inr (chapterTitle_ne g1 g2)
    | para t => exact Or.inl rfl
    | clauseParen g1 => exact Or.inl rfl
    | clauseDot g1 => exact Or.inl rfl
    | other =>
      simp only []
      split
      · exact Or.inl rfl
      · exact Or.inl rfl





/-- The chapter invariant of the C1 analysis: the parser context, the
    tracked block metadata and every emitted chunk carry a non-empty
    `Chapter`. -/
def ChapInv (s : AsmState) : Prop :=
  s.parser.Chapter ≠ "" ∧
  (∀ m, s.current_metadata = some m → m.Chapter ≠ "") ∧
  (∀ ch ∈ s.chunks, ch.metadata.Chapter ≠ "")

lemma updateMeta_Chapter_ne {cm : Option Record} {record : Record}
    {inc inp incl : Bool} (h : record.Chapter ≠ "") :
    (updateMeta cm record inc inp incl).Chapter ≠ "" := by
  simp [updateMeta, h]

lemma chunkStep_chapInv {u n : Nat → String} {hf : String → Nat} {src : String}
    {s : AsmState} {line : List Char}
    (hs : ChapInv s) (hsec : matchSectionPat (strip line) = none) :
    ChapInv (chunkStep u n hf src s line) := by
  obtain ⟨hp, hcm, hck⟩ := hs
  have hch1 : (parse_line s.parser line).1.Chapter ≠ "" := by
    rcases @parse_line_Chapter s.parser line hsec with h | h
    · rw [h]; exact hp
    · exact h
  unfold chunkStep
  cases hpl : parse_line s.parser line with
  | mk st2 orec =>
    rw [hpl] at hch1
    cases orec with
    | none =>
      simp only []
      split
      · split
        · exact ⟨hch1, hcm, hck⟩
        · exact ⟨hch1, hcm, hck⟩
      · exact ⟨hch1, hcm, hck⟩
    | some record =>
      obtain ⟨x, hx⟩ := parse_line_record_shape hpl
      have hrc : record.Chapter ≠ "" := by rw [hx]; exact hch1
      refine ⟨hch1, ?_, ?_⟩
      · intro m hm
        have hme := Option.some.inj hm
        rw [← hme]
        exact updateMeta_Chapter_ne hrc
      · intro ch hch
        rcases closeBlock_mem hch with hin | ⟨cm, hcmEq, hc | hc | ⟨hc, _⟩⟩
        · exact hck ch hin
        · rw [hc, create_Chapter]; exact hcm cm hcmEq
        · rw [hc, create_Chapter]; exact hcm cm hcmEq
        · rw [hc, create_Chapter]; exact hcm cm hcmEq

lemma parse_line_chap_state {st : Metadata} {raw : List Char} {g1 g2 : List Char}
    (h : classifyChapter (strip raw) = some (g1, g2)) :
    (parse_line st raw).1.Chapter ≠ "" ∧ ∃ r, (parse_line st raw).2 = some r := by
  obtain ⟨c, cs, hsh, hc⟩ := matchChapterPre_shape (classifyChapter_pre h)
  have hne : strip raw ≠ [] := by rw [hsh]; simp
  have hcl := classify_of_chap h
  constructor
  · simp [parse_line, hcl, List.isEmpty_iff, hne, chapterTitle_ne]
  · simp [parse_line, hcl, List.isEmpty_iff, hne]

lemma chunkStep_init_chapInv {u n : Nat → String} {hf : String → Nat} {src : String}
    {l0 : List Char} (hchap : isChapterLine (strip l0) = true) :
    ChapInv (chunkStep u n hf src initState l0) := by
  obtain ⟨p, hp⟩ := Option.isSome_iff_exists.mp hchap
  obtain ⟨g1, g2⟩ := p
  obtain ⟨hch1, r, hrec⟩ := @parse_line_chap_state initState.parser l0 g1 g2 hp
  unfold chunkStep
  cases hpl : parse_line initState.parser l0 with
  | mk st2 orec =>
    rw [hpl] at hch1 hrec
    cases orec with
    | none => exact absurd hrec (by simp)
    | some record =>
      obtain ⟨x, hx⟩ := parse_line_record_shape hpl
      have hrc : record.Chapter ≠ "" := by rw [hx]; exact hch1
      refine ⟨hch1, ?_, ?_⟩
      · intro m hm
        have hme := Option.some.inj hm
        rw [← hme]
        exact updateMeta_Chapter_ne hrc
      · intro ch hch
        rcases closeBlock_mem hch with hin | ⟨cm, hcmEq, _⟩
        · exact absurd hin (List.not_mem_nil ch)
        · exact absurd hcmEq (by simp [initState])

lemma foldl_chapInv {u n : Nat → String} {hf : String → Nat} {src : String}
    {lines : List (List Char)} {s : AsmState}
    (hs : ChapInv s) (hsec : ∀ l ∈ lines, matchSectionPat (strip l) = none) :
    ChapInv (lines.foldl (chunkStep u n hf src) s) := by
  induction lines generalizing s with
  | nil => exact hs
  | cons l ls ih =>
    rw [List.foldl_cons]
    exact ih (chunkStep_chapInv hs (hsec l (by simp)))
      (fun x hx => hsec x (List.mem_cons_of_mem _ hx))





/-- Amended claim C1: on inputs whose first line is a chapter marker and
    which contain no section marker lines, every emitted chunk has a
    non-empty `Chapter`; in particular a chunk with non-empty `Clause` has
    non-empty `Chapter`.  (Without that restriction the claim fails, see
    the counterexample: clauses can be emitted before any chapter, and a
    section marker resets the parser's chapter.) -/
theorem c1_amended (content src : String) (u n : Nat → String) (hf : String → Nat)
    (hchap : (match splitNl content.toList with
      | [] => false
      | l0 :: _ => isChapterLine (strip l0)) = true)
    (hnosec : ((splitNl content.toList).tail.all
      fun l => (matchSectionPat (strip l)).isNone) = true)
    (ch : Chunk) (hch : ch ∈ chunk_document content src u n hf) :
    ch.metadata.Clause ≠ "" → ch.metadata.Chapter ≠ "" := by
  intro _
  cases hl : splitNl content.toList with
  | nil => rw [hl] at hchap; exact absurd hchap (by simp)
  | cons l0 rest =>
    rw [hl] at hchap hnosec
    have hinv : ChapInv (chunk_document_core content src u n hf) := by
      unfold chunk_document_core
      rw [hl, List.foldl_cons]
      refine foldl_chapInv (chunkStep_init_chapInv hchap) ?_
      intro l hlmem
      exact (by simpa using hnosec :
        ∀ x ∈ rest, matchSectionPat (strip x) = none) l hlmem
    obtain ⟨hp, hcm, hck⟩ := hinv
    unfold chunk_document finalFlushStep at hch
    cases hm : (chunk_document_core content src u n hf).current_metadata with
    | none => rw [hm] at hch; exact hck ch hch
    | some cm =>
      rw [hm] at hch
      simp only [] at hch
      split at hch
      · split at hch
        · rcases List.mem_append.mp hch with h | h
          · exact hck ch h
          · rw [List.mem_singleton.mp h, create_Chapter]
            exact hcm cm hm
        · exact hck ch hch
      · exact hck ch hch

/-- Input whose first line is a chapter marker and which has no section
    markers, with clause chunks. -/
def c1ain : String := "# Глава 1.1 - А\n(1.1.1) х\n(1.1.2) у"

theorem c1_amended_witness :
    ((chunk_document c1ain (("f")) u0 n0 h0).get ⟨0, by decide⟩).metadata.Chapter ≠ "" :=
  c1_amended c1ain (("f")) u0 n0 h0 (by decide) (by decide) _ (by decide) (by decide)

lemma scrub_eq (ch : Chunk) : scrub ch = ⟨"", ch.metadata, ch.content, "", ch.site⟩ := rfl

lemma create_metadata_indep (a b a2 b2 : String) (c c2 : String → Nat)
    (site : EmitSite) (m : Record) (cc : List String) (src : String) :
    (create_chunk_obj a b c site m cc src).metadata =
      (create_chunk_obj a2 b2 c2 site m cc src).metadata := rfl

lemma create_content_indep (a b a2 b2 : String) (c c2 : String → Nat)
    (site : EmitSite) (m : Record) (cc : List String) (src : String) :
    (create_chunk_obj a b c site m cc src).content =
      (create_chunk_obj a2 b2 c2 site m cc src).content := rfl

lemma scrub_create (a b a2 b2 : String) (c c2 : String → Nat) (site : EmitSite)
    (m : Record) (cc : List String) (src : String) :
    scrub (create_chunk_obj a b c site m cc src) =
      scrub (create_chunk_obj a2 b2 c2 site m cc src) := by
  rw [scrub_eq, scrub_eq, create_metadata_indep a b a2 b2 c c2,
    create_content_indep a b a2 b2 c c2, create_site, create_site]





/-- The simulation relation of the C9 proof: two loop states that agree on
    everything except the `id`/`created_at` fields of the emitted chunks. -/
def StepRel (s1 s2 : AsmState) : Prop :=
  s1.parser = s2.parser ∧
  s1.current_content = s2.current_content ∧
  s1.current_metadata = s2.current_metadata ∧
  s1.clause_count = s2.clause_count ∧
  s1.has_clause_in_block = s2.has_clause_in_block ∧
  s1.chunks.map scrub = s2.chunks.map scrub

lemma closeBlock_rel {u1 n1 u2 n2 : Nat → String} {h1 h2 : String → Nat}
    {src : String} {s1 s2 : AsmState} {inc inp incl : Bool}
    (hr : StepRel s1 s2) :
    (closeBlock u1 n1 h1 src s1 inc inp incl).1.map scrub =
        (closeBlock u2 n2 h2 src s2 inc inp incl).1.map scrub ∧
      (closeBlock u1 n1 h1 src s1 inc inp incl).2.1 =
        (closeBlock u2 n2 h2 src s2 inc inp incl).2.1 ∧
      (closeBlock u1 n1 h1 src s1 inc inp incl).2.2 =
        (closeBlock u2 n2 h2 src s2 inc inp incl).2.2 := by
  obtain ⟨hp, hcc, hcm, hn, hb, hch⟩ := hr
  unfold closeBlock
  rw [hcm, hcc, hb]
  cases s2.current_metadata with
  | none => exact ⟨hch, rfl, rfl⟩
  | some cm =>
    simp only []
    split
    · refine ⟨?_, rfl, rfl⟩
      rw [List.map_append, List.map_append, hch, List.map_singleton,
        List.map_singleton, scrub_create]
    · split
      · refine ⟨?_, rfl, rfl⟩
        rw [List.map_append, List.map_append, hch, List.map_singleton,
          List.map_singleton, scrub_create]
      · split
        · refine ⟨?_, rfl, rfl⟩
          rw [List.map_append, List.map_append, hch, List.map_singleton,
            List.map_singleton, scrub_create]
        · exact ⟨hch, rfl, rfl⟩





lemma chunkStep_rel {u1 n1 u2 n2 : Nat → String} {h1 h2 : String → Nat}
    {src : String} {s1 s2 : AsmState} {line : List Char}
    (hr : StepRel s1 s2) :
    StepRel (chunkStep u1 n1 h1 src s1 line) (chunkStep u2 n2 h2 src s2 line) := by
  obtain ⟨hp, hcc, hcm, hn, hb, hch⟩ := hr
  unfold chunkStep
  rw [hp]
  cases hpl : parse_line s2.parser line with
  | mk st2 orec =>
    cases orec with
    | none =>
      simp only []
      rw [hcm, hcc]
      cases s2.current_metadata with
      | none => exact ⟨rfl, rfl, rfl, hn, hb, hch⟩
      | some cm =>
        simp only []
        split
        · exact ⟨rfl, rfl, rfl, hn, hb, hch⟩
        · exact ⟨rfl, rfl, rfl, hn, hb, hch⟩
    | some record =>
      simp only []
      rw [hcm]
      have hr2 : StepRel
          { parser := st2, chunks := s1.chunks, current_content := s1.current_content,
            current_metadata := s2.current_metadata, clause_count := s1.clause_count,
            has_clause_in_block := s1.has_clause_in_block }
          { parser := st2, chunks := s2.chunks, current_content := s2.current_content,
            current_metadata := s2.current_metadata, clause_count := s2.clause_count,
            has_clause_in_block := s2.has_clause_in_block } :=
        ⟨rfl, hcc, rfl, hn, hb, hch⟩
      obtain ⟨hc1, hc2, hc3⟩ := @closeBlock_rel u1 n1 u2 n2 h1 h2 src _ _
        (newFlags s2.current_metadata record).1
        (newFlags s2.current_metadata record).2.1
        (newFlags s2.current_metadata record).2.2 hr2
      exact ⟨rfl, by rw [hc2], rfl, hn, by rw [hc3], hc1⟩

lemma foldl_rel {u1 n1 u2 n2 : Nat → String} {h1 h2 : String → Nat}
    {src : String} {lines : List (List Char)} {s1 s2 : AsmState}
    (hr : StepRel s1 s2) :
    StepRel (lines.foldl (chunkStep u1 n1 h1 src) s1)
      (lines.foldl (chunkStep u2 n2 h2 src) s2) := by
  induction lines generalizing s1 s2 with
  | nil => exact hr
  | cons l ls ih =>
    rw [List.foldl_cons, List.foldl_cons]
    exact ih (chunkStep_rel hr)

/-- Claim C9: two runs of `chunk_document` on the same content and source
    identifier, with arbitrary uuid/time/hash draws, produce the same chunk
    sequence up to the `id` and `created_at` fields: same length, and
    corresponding chunks have identical `content` and identical metadata
    (`Document`, `Section`, `Chapter`, `Paragraph`, `Clause`,
    `contains_tables`, `contains_images`, `source_file`). -/
theorem c9_determinism (content src : String) (u1 n1 u2 n2 : Nat → String)
    (h1 h2 : String → Nat) :
    (chunk_document content src u1 n1 h1).map scrub =
      (chunk_document content src u2 n2 h2).map scrub := by
  have hrel : StepRel (chunk_document_core content src u1 n1 h1)
      (chunk_document_core content src u2 n2 h2) := by
    unfold chunk_document_core
    exact foldl_rel ⟨rfl, rfl, rfl, rfl, rfl, rfl⟩
  obtain ⟨hp, hcc, hcm, hn, hb, hch⟩ := hrel
  unfold chunk_document finalFlushStep
  rw [hcm, hcc]
  cases (chunk_document_core content src u2 n2 h2).current_metadata with
  | none => exact hch
  | some cm =>
    simp only []
    split
    · split
      · rw [List.map_append, List.map_append, hch, List.map_singleton,
          List.map_singleton, scrub_create]
      · exact hch
    · exact hch

end MdChunker
